import Mathlib

/-
  Shallow embedding of the license-plate validation service
  (src/app.py and src/src/api/license_plate.py).

  Strings are modelled as lists of characters.  The regular expressions of
  validate_russian_plate are embedded as explicit token sequences (each
  regex is a finite union of fixed-width alternatives), and the HTTP
  endpoints as state-passing functions over the process-wide counters.
-/

namespace Camera

/-- Python strings are modelled as lists of unicode characters. -/
abbrev Str := List Char

/-- The Cyrillic capital letter А (U+0410). -/
def cyrA : Char := 'А'

/-- The Cyrillic capital letter Д (U+0414), the literal of the diplomatic regex. -/
def cyrD : Char := 'Д'

/-- The Cyrillic capital letter Т (U+0422), the literal of the transit regex. -/
def cyrT : Char := 'Т'

/-- Embedding of the regex character class [АВЕКМНОРСТУХ]: the 12 Cyrillic
letters used on Russian plates (code points 410, 412, 415, 41A, 41C, 41D,
41E, 420, 421, 422, 423, 425). -/
def isPlateLetter (c : Char) : Bool :=
  c == 'А' || c == 'В' || c == 'Е' || c == 'К' || c == 'М' || c == 'Н' ||
  c == 'О' || c == 'Р' || c == 'С' || c == 'Т' || c == 'У' || c == 'Х'

/-- Embedding of the regex class \d (restricted to the decimal digits 0-9). -/
def isDigitChar (c : Char) : Bool := c.isDigit

/-- Embedding of Python str.upper restricted to the ASCII and Cyrillic
letters (the repertoire relevant to plate strings); other characters are
left unchanged. -/
def pyUpperChar (c : Char) : Char :=
  if 'a' ≤ c ∧ c ≤ 'z' then Char.ofNat (c.toNat - 32)
  else if 'а' ≤ c ∧ c ≤ 'я' then Char.ofNat (c.toNat - 32)
  else if c = 'ё' then 'Ё'
  else c

/-- Normalization performed at the top of validate_russian_plate:
upper-case, then remove every space and hyphen
(plate_number.upper().replace(" ", "").replace("-", "")). -/
def normalize (s : Str) : Str :=
  (s.map pyUpperChar).filter (fun c => !(c == ' ' || c == '-'))

/-- Python single-character str.split: split the list at every occurrence
of the separator; adjacent separators produce empty pieces. -/
def splitOnChar (sep : Char) : Str → List Str
  | [] => [[]]
  | c :: cs =>
    if c == sep then [] :: splitOnChar sep cs
    else
      match splitOnChar sep cs with
      | [] => [[c]]
      | h :: t => (c :: h) :: t

/-- Whitespace stripped by Python str.strip. -/
def isPyWhitespace (c : Char) : Bool :=
  c == ' ' || c == '\t' || c == '\n' || c == '\r' || c == '\x0b' || c == '\x0c'

/-- Embedding of Python str.strip(): drop whitespace from both ends. -/
def pyStrip (s : Str) : Str :=
  ((s.dropWhile isPyWhitespace).reverse.dropWhile isPyWhitespace).reverse

/-- Embedding of the Python slice s[-n:]: the last n characters
(the whole string when it is shorter than n). -/
def takeLast (n : Nat) (s : Str) : Str := s.drop (s.length - n)

/-- One token of an embedded regex: a plate-letter class, a digit class,
or a literal character. -/
inductive Tok where
  | letter : Tok
  | digit : Tok
  | lit : Char → Tok
deriving DecidableEq

/-- Whether a single character matches a token. -/
def tokMatches : Tok → Char → Bool
  | Tok.letter, c => isPlateLetter c
  | Tok.digit, c => isDigitChar c
  | Tok.lit l, c => c == l

/-- Whether a string matches a token sequence exactly (same length,
pointwise token match): the semantics of an anchored fixed-width regex. -/
def seqMatches : List Tok → Str → Bool
  | [], [] => true
  | t :: ts, c :: cs => tokMatches t c && seqMatches ts cs
  | _, _ => false

/-- A pattern is a finite union of fixed-width alternatives; each of the
six source regexes is such a union because every bounded repetition
{m,n} is finite.  Python re.match of a ^...$-anchored pattern accepts a
string when some alternative matches all of it, or - because the $
anchor also matches just before a newline that ends the string - when
the string ends in a newline and some alternative matches the string
without that final newline. -/
def patMatches (alts : List (List Tok)) (s : Str) : Bool :=
  alts.any (fun a => seqMatches a s ||
    (s.getLast? == some '\n' && seqMatches a s.dropLast))

/-- Exact matching of a pattern union, without the trailing-newline
allowance of the $ anchor: a proof-side companion of patMatches. -/
def exactMatches (alts : List (List Tok)) (s : Str) : Bool :=
  alts.any (fun a => seqMatches a s)

/-- Removal of the one trailing newline the $ anchor can absorb. -/
def chomp (s : Str) : Str :=
  if s.getLast? = some '\n' then s.dropLast else s

/-- One alternative of the standard regex
^[АВЕКМНОРСТУХ]\d{3}[АВЕКМНОРСТУХ]{2}\d{2,3}$ with k trailing digits. -/
def standardAlt (k : Nat) : List Tok :=
  ([Tok.letter] ++ List.replicate 3 Tok.digit ++ List.replicate 2 Tok.letter)
    ++ List.replicate k Tok.digit

/-- The standard pattern: trailing digit group of width 2 or 3. -/
def standardPat : List (List Tok) := [standardAlt 2, standardAlt 3]

/-- One alternative of the taxi regex ^[АВЕКМНОРСТУХ]{2}\d{3}\d{2,3}$. -/
def taxiAlt (k : Nat) : List Tok :=
  (List.replicate 2 Tok.letter ++ List.replicate 3 Tok.digit)
    ++ List.replicate k Tok.digit

/-- The taxi pattern. -/
def taxiPat : List (List Tok) := [taxiAlt 2, taxiAlt 3]

/-- One alternative of the trailer regex ^[АВЕКМНОРСТУХ]{2}\d{4}\d{2,3}$. -/
def trailerAlt (k : Nat) : List Tok :=
  (List.replicate 2 Tok.letter ++ List.replicate 4 Tok.digit)
    ++ List.replicate k Tok.digit

/-- The trailer pattern. -/
def trailerPat : List (List Tok) := [trailerAlt 2, trailerAlt 3]

/-- One alternative of the motorcycle regex ^\d{4}[АВЕКМНОРСТУХ]{2}\d{2,3}$. -/
def motorcycleAlt (k : Nat) : List Tok :=
  (List.replicate 4 Tok.digit ++ List.replicate 2 Tok.letter)
    ++ List.replicate k Tok.digit

/-- The motorcycle pattern. -/
def motorcyclePat : List (List Tok) := [motorcycleAlt 2, motorcycleAlt 3]

/-- The transit regex ^Т\d{5}[АВЕКМНОРСТУХ]$ (a single alternative). -/
def transitPat : List (List Tok) :=
  [[Tok.lit cyrT] ++ (List.replicate 5 Tok.digit ++ [Tok.letter])]

/-- One alternative of the diplomatic regex ^\d{3,4}Д\d{2,3}$ with j
leading and k trailing digits. -/
def diplomaticAlt (j k : Nat) : List Tok :=
  List.replicate j Tok.digit ++ ([Tok.lit cyrD] ++ List.replicate k Tok.digit)

/-- The diplomatic pattern: 3 or 4 leading digits, 2 or 3 trailing digits. -/
def diplomaticPat : List (List Tok) :=
  [diplomaticAlt 3 2, diplomaticAlt 3 3, diplomaticAlt 4 2, diplomaticAlt 4 3]

/-- The six plate types, in the order of the patterns dict of the source
(Python dicts preserve insertion order); they embed the Literal values
"standard", "taxi", "trailer", "motorcycle", "transit", "diplomatic". -/
inductive PlateType where
  | standard : PlateType
  | taxi : PlateType
  | trailer : PlateType
  | motorcycle : PlateType
  | transit : PlateType
  | diplomatic : PlateType
deriving DecidableEq

/-- The string name of a plate type, as interpolated into the message. -/
def plateTypeName : PlateType → String
  | PlateType.standard => "standard"
  | PlateType.taxi => "taxi"
  | PlateType.trailer => "trailer"
  | PlateType.motorcycle => "motorcycle"
  | PlateType.transit => "transit"
  | PlateType.diplomatic => "diplomatic"

/-- The patterns dict of validate_russian_plate, in its insertion
(= iteration) order. -/
def patterns : List (PlateType × List (List Tok)) :=
  [(PlateType.standard, standardPat),
   (PlateType.taxi, taxiPat),
   (PlateType.trailer, trailerPat),
   (PlateType.motorcycle, motorcyclePat),
   (PlateType.transit, transitPat),
   (PlateType.diplomatic, diplomaticPat)]

/-- Line 67 of the source: region of a standard plate,
plate_number[-2:] if len(plate_number) == 8 else plate_number[-3:]. -/
def regionExactly8 (p : Str) : Str :=
  if p.length == 8 then takeLast 2 p else takeLast 3 p

/-- Line 69 of the source: region of a taxi, trailer or motorcycle plate,
plate_number[-2:] if len(plate_number) <= 8 else plate_number[-3:]. -/
def regionAtMost8 (p : Str) : Str :=
  if p.length ≤ 8 then takeLast 2 p else takeLast 3 p

/-- Region-code extraction of validate_russian_plate lines 62-72.  The
outer Option models a possible Python IndexError: for a diplomatic plate
the code takes plate_number.split('Д')[1], which raises when the split
yields fewer than two pieces. -/
def extractRegion (plate_type : PlateType) (p : Str) : Option (Option Str) :=
  if plate_type = PlateType.standard ∨ plate_type = PlateType.taxi ∨
     plate_type = PlateType.trailer ∨ plate_type = PlateType.motorcycle then
    if plate_type = PlateType.standard then some (some (regionExactly8 p))
    else some (some (regionAtMost8 p))
  else if plate_type = PlateType.diplomatic then
    match (splitOnChar cyrD p).get? 1 with
    | some r => some (some r)
    | none => none
  else some none

/-- The result dict of validate_russian_plate / the LicensePlateResponse
classification fields. -/
structure ClassificationResult where
  is_valid : Bool
  plate_type : Option PlateType
  region_code : Option Str
  message : String
deriving DecidableEq

/-- The message of a successful validation,
f-string "Номерной знак корректен (тип: {plate_type})". -/
def validMessage (ty : PlateType) : String :=
  "Номерной знак корректен (тип: " ++ plateTypeName ty ++ ")"

/-- The result returned when no pattern matches (lines 81-86). -/
def invalidResult : ClassificationResult :=
  { is_valid := false, plate_type := none, region_code := none,
    message := "Некорректный формат номерного знака" }

/-- The for-loop of validate_russian_plate: try each pattern in dict
order; on the first match extract the region and return the valid result;
fall through to the invalid result.  none models an uncaught exception. -/
def classifyLoop : List (PlateType × List (List Tok)) → Str →
    Option ClassificationResult
  | [], _ => some invalidResult
  | (ty, pat) :: rest, p =>
    if patMatches pat p then
      match extractRegion ty p with
      | some rc => some { is_valid := true, plate_type := some ty,
                          region_code := rc, message := validMessage ty }
      | none => none
    else classifyLoop rest p

/-- validate_russian_plate: normalize, then run the pattern loop. -/
def validate_russian_plate (plate_number : Str) : Option ClassificationResult :=
  classifyLoop patterns (normalize plate_number)

/-- The process-wide counters dict validation_stats. -/
structure Stats where
  total : Nat
  valid : Nat
  invalid : Nat
deriving DecidableEq

/-- The counters at process start: all zero. -/
def initStats : Stats := { total := 0, valid := 0, invalid := 0 }

/-- The counter update performed after each classification (lines
100-104 and the analogous blocks of the two GET handlers). -/
def recordValidation (st : Stats) (r : ClassificationResult) : Stats :=
  { total := st.total + 1,
    valid := if r.is_valid then st.valid + 1 else st.valid,
    invalid := if r.is_valid then st.invalid else st.invalid + 1 }

/-- POST /validate.  Pydantic enforces 1-20 characters and the validator
rejects blank input (both 422, counters untouched); the handler then
classifies the stripped plate and updates the counters.  An exception
from classification is a 500 with counters untouched. -/
def validate_license_plate (raw : Str) (st : Stats) :
    Except Nat ClassificationResult × Stats :=
  if raw.length < 1 || raw.length > 20 then (Except.error 422, st)
  else if (pyStrip raw).isEmpty then (Except.error 422, st)
  else
    match validate_russian_plate (pyStrip raw) with
    | none => (Except.error 500, st)
    | some r => (Except.ok r, recordValidation st r)

/-- GET /(plate_number).  Blank input is a 400; otherwise the raw path
parameter is classified and the counters updated. -/
def get_license_plate_info (raw : Str) (st : Stats) :
    Except Nat ClassificationResult × Stats :=
  if raw.length < 1 || raw.length > 20 then (Except.error 422, st)
  else if (pyStrip raw).isEmpty then (Except.error 400, st)
  else
    match validate_russian_plate raw with
    | none => (Except.error 500, st)
    | some r => (Except.ok r, recordValidation st r)

/-- The per-item defensive handler of the batch loop: on an exception the
item becomes an invalid response with an error message and the counters
are not touched (the update sits after the classification call). -/
def batchErrorItem : ClassificationResult :=
  { is_valid := false, plate_type := none, region_code := none,
    message := "Ошибка при обработке" }

/-- The for-loop of validate_multiple_plates: classify each plate in
order, updating the counters after each successful classification. -/
def batchLoop : List Str → Stats → List ClassificationResult × Stats
  | [], st => ([], st)
  | p :: rest, st =>
    match validate_russian_plate p with
    | none =>
      let out := batchLoop rest st
      (batchErrorItem :: out.1, out.2)
    | some r =>
      let out := batchLoop rest (recordValidation st r)
      (r :: out.1, out.2)

/-- Line 159 of the source: split the query on commas, strip each piece,
drop the pieces that are blank after stripping. -/
def plateList (plates : Str) : List Str :=
  ((splitOnChar ',' plates).map pyStrip).filter (fun p => !p.isEmpty)

/-- GET / (batch validation).  An empty plate list or more than 10 plates
is a 400 with counters untouched; otherwise every plate is classified in
order. -/
def validate_multiple_plates (plates : Str) (st : Stats) :
    Except Nat (List ClassificationResult) × Stats :=
  let pl := plateList plates
  if pl.isEmpty then (Except.error 400, st)
  else if pl.length > 10 then (Except.error 400, st)
  else
    let out := batchLoop pl st
    (Except.ok out.1, out.2)

/-- The states of the counters reachable by any sequence of calls to the
three plate-accepting endpoints, starting from process start. -/
inductive Reachable : Stats → Prop where
  | init : Reachable initStats
  | post (raw : Str) (st : Stats) :
      Reachable st → Reachable (validate_license_plate raw st).2
  | getOne (raw : Str) (st : Stats) :
      Reachable st → Reachable (get_license_plate_info raw st).2
  | batch (plates : Str) (st : Stats) :
      Reachable st → Reachable (validate_multiple_plates plates st).2

/-
  Helper lemmas about the embedded regexes.
-/

/-- A plate letter (Cyrillic) is never a decimal digit. -/
theorem letter_not_digit (c : Char) (h : isPlateLetter c = true) :
    isDigitChar c = false := by
  have hv : c = 'А' ∨ c = 'В' ∨ c = 'Е' ∨ c = 'К' ∨ c = 'М' ∨ c = 'Н' ∨
      c = 'О' ∨ c = 'Р' ∨ c = 'С' ∨ c = 'Т' ∨ c = 'У' ∨ c = 'Х' := by
    simpa [isPlateLetter, Bool.or_eq_true, beq_iff_eq, or_assoc] using h
  rcases hv with rfl | rfl | rfl | rfl | rfl | rfl | rfl | rfl | rfl | rfl |
    rfl | rfl <;> decide

/-- Two tokens conflict when no character can match both. -/
def tokConflict : Tok → Tok → Bool
  | Tok.letter, Tok.digit => true
  | Tok.digit, Tok.letter => true
  | Tok.letter, Tok.lit c => !isPlateLetter c
  | Tok.lit c, Tok.letter => !isPlateLetter c
  | Tok.digit, Tok.lit c => !isDigitChar c
  | Tok.lit c, Tok.digit => !isDigitChar c
  | Tok.lit c, Tok.lit d => !(c == d)
  | _, _ => false

/-- Soundness of tokConflict. -/
theorem tokConflict_sound (t u : Tok) (h : tokConflict t u = true) (c : Char)
    (h1 : tokMatches t c = true) (h2 : tokMatches u c = true) : False := by
  cases t with
  | letter =>
    cases u with
    | letter => simp [tokConflict] at h
    | digit =>
      simp only [tokMatches] at h1 h2
      rw [letter_not_digit c h1] at h2
      exact Bool.false_ne_true h2
    | lit d =>
      simp only [tokMatches, beq_iff_eq] at h1 h2
      rw [tokConflict, Bool.not_eq_true'] at h
      subst h2
      simp [h] at h1
  | digit =>
    cases u with
    | letter =>
      simp only [tokMatches] at h1 h2
      rw [letter_not_digit c h2] at h1
      exact Bool.false_ne_true h1
    | digit => simp [tokConflict] at h
    | lit d =>
      simp only [tokMatches, beq_iff_eq] at h1 h2
      rw [tokConflict, Bool.not_eq_true'] at h
      subst h2
      simp [h] at h1
  | lit d =>
    cases u with
    | letter =>
      simp only [tokMatches, beq_iff_eq] at h1 h2
      rw [tokConflict, Bool.not_eq_true'] at h
      subst h1
      simp [h] at h2
    | digit =>
      simp only [tokMatches, beq_iff_eq] at h1 h2
      rw [tokConflict, Bool.not_eq_true'] at h
      subst h1
      simp [h] at h2
    | lit e =>
      simp only [tokMatches, beq_iff_eq] at h1 h2
      subst h1
      subst h2
      simp [tokConflict] at h

/-- Two token sequences conflict when no string can match both:
either the lengths differ or some position holds conflicting tokens. -/
def seqConflict : List Tok → List Tok → Bool
  | [], [] => false
  | t :: ts, u :: us => tokConflict t u || seqConflict ts us
  | _, _ => true

/-- Soundness of seqConflict. -/
theorem seqConflict_sound : ∀ (a b : List Tok) (s : Str),
    seqConflict a b = true → seqMatches a s = true → seqMatches b s = true →
    False
  | [], [], _, hc, _, _ => by simp [seqConflict] at hc
  | [], _ :: _, s, _, ha, hb => by
      cases s with
      | nil => simp [seqMatches] at hb
      | cons c cs => simp [seqMatches] at ha
  | _ :: _, [], s, _, ha, hb => by
      cases s with
      | nil => simp [seqMatches] at ha
      | cons c cs => simp [seqMatches] at hb
  | t :: ts, u :: us, s, hc, ha, hb => by
      cases s with
      | nil => simp [seqMatches] at ha
      | cons c cs =>
        simp only [seqMatches, Bool.and_eq_true] at ha hb
        simp only [seqConflict, Bool.or_eq_true] at hc
        rcases hc with hc | hc
        · exact tokConflict_sound t u hc c ha.1 hb.1
        · exact seqConflict_sound ts us cs hc ha.2 hb.2

/-- Two patterns conflict when every pair of alternatives conflicts. -/
def patConflict (p q : List (List Tok)) : Bool :=
  p.all (fun a => q.all (fun b => seqConflict a b))

/-- Soundness of patConflict: conflicting patterns have no common exact
match. -/
theorem patConflict_sound (p q : List (List Tok))
    (h : patConflict p q = true) (s : Str) :
    ¬(exactMatches p s = true ∧ exactMatches q s = true) := by
  rintro ⟨hp, hq⟩
  simp only [exactMatches, List.any_eq_true] at hp hq
  obtain ⟨a, ha, hma⟩ := hp
  obtain ⟨b, hb, hmb⟩ := hq
  simp only [patConflict, List.all_eq_true] at h
  exact seqConflict_sound a b s (h a ha b hb) hma hmb

/-- A string matching a token sequence has the sequence's length. -/
theorem seqMatches_length : ∀ (a : List Tok) (s : Str),
    seqMatches a s = true → s.length = a.length
  | [], [], _ => rfl
  | [], _ :: _, h => by simp [seqMatches] at h
  | _ :: _, [], h => by simp [seqMatches] at h
  | t :: ts, c :: cs, h => by
      simp only [seqMatches, Bool.and_eq_true] at h
      simp [seqMatches_length ts cs h.2]

/-- A match of a concatenated sequence splits the string. -/
theorem seqMatches_append : ∀ (a b : List Tok) (s : Str),
    seqMatches (a ++ b) s = true →
    ∃ s1 s2, s = s1 ++ s2 ∧ seqMatches a s1 = true ∧ seqMatches b s2 = true
  | [], b, s, h => ⟨[], s, rfl, rfl, h⟩
  | t :: ts, b, s, h => by
      cases s with
      | nil => simp [seqMatches] at h
      | cons c cs =>
        rw [List.cons_append] at h
        simp only [seqMatches, Bool.and_eq_true] at h
        obtain ⟨s1, s2, rfl, h1, h2⟩ := seqMatches_append ts b cs h.2
        exact ⟨c :: s1, s2, rfl, by simp [seqMatches, h.1, h1], h2⟩

/-- A match of a replicated token gives length and a pointwise property. -/
theorem seqMatches_replicate : ∀ (n : Nat) (t : Tok) (s : Str),
    seqMatches (List.replicate n t) s = true →
    s.length = n ∧ ∀ c ∈ s, tokMatches t c = true
  | 0, _, [], _ => ⟨rfl, by simp⟩
  | 0, _, _ :: _, h => by simp [seqMatches] at h
  | _ + 1, t, [], h => by simp [List.replicate, seqMatches] at h
  | n + 1, t, c :: cs, h => by
      rw [List.replicate_succ] at h
      simp only [seqMatches, Bool.and_eq_true] at h
      obtain ⟨hl, hall⟩ := seqMatches_replicate n t cs h.2
      refine ⟨by simp [hl], ?_⟩
      intro d hd
      rcases List.mem_cons.mp hd with rfl | hd
      · exact h.1
      · exact hall d hd

/-- A match of a single literal token pins the string down. -/
theorem seqMatches_lit (c : Char) (s : Str)
    (h : seqMatches [Tok.lit c] s = true) : s = [c] := by
  match s with
  | [] => simp [seqMatches] at h
  | [d] =>
    simp only [seqMatches, tokMatches, Bool.and_eq_true, beq_iff_eq] at h
    simp [h.1]
  | _ :: _ :: _ => simp [seqMatches] at h

/-- A string exactly matching a pattern has the length of one of its
alternatives. -/
theorem exactMatches_length (alts : List (List Tok)) (s : Str)
    (h : exactMatches alts s = true) : ∃ a ∈ alts, s.length = a.length := by
  simp only [exactMatches, List.any_eq_true] at h
  obtain ⟨a, ha, hm⟩ := h
  exact ⟨a, ha, seqMatches_length a s hm⟩

/-- A match of a single letter token pins the string down to one plate
letter. -/
theorem seqMatches_letter (s : Str) (h : seqMatches [Tok.letter] s = true) :
    ∃ c, s = [c] ∧ isPlateLetter c = true := by
  match s with
  | [] => simp [seqMatches] at h
  | [c] =>
    simp only [seqMatches, tokMatches, Bool.and_eq_true] at h
    exact ⟨c, rfl, h.1⟩
  | _ :: _ :: _ => simp [seqMatches] at h

/-- A string ending in a newline has no exact match against an
alternative ending in a digit run: a newline is not a digit. -/
theorem seqMatches_newline_digit (pre : List Tok) (k : Nat) (hk : k ≠ 0)
    (u : Str) (hnl : u.getLast? = some '\n') :
    seqMatches (pre ++ List.replicate k Tok.digit) u = false := by
  cases hm : seqMatches (pre ++ List.replicate k Tok.digit) u with
  | false => rfl
  | true =>
    exfalso
    obtain ⟨s1, s2, he, h1, h2⟩ := seqMatches_append _ _ _ hm
    obtain ⟨hl, hd⟩ := seqMatches_replicate k Tok.digit s2 h2
    have hs2 : s2 ≠ [] := by
      intro hemp
      rw [hemp] at hl
      exact hk (by simpa using hl.symm)
    have hlast : s2.getLast? = some '\n' := by
      rw [he, List.getLast?_append_of_ne_nil s1 hs2] at hnl
      exact hnl
    have hmem : '\n' ∈ s2 := List.mem_of_getLast?_eq_some hlast
    exact absurd (hd '\n' hmem) (by decide)

/-- A string ending in a newline has no exact match against an
alternative ending in a letter token: a newline is not a plate letter. -/
theorem seqMatches_newline_letter (pre : List Tok) (u : Str)
    (hnl : u.getLast? = some '\n') :
    seqMatches (pre ++ [Tok.letter]) u = false := by
  cases hm : seqMatches (pre ++ [Tok.letter]) u with
  | false => rfl
  | true =>
    exfalso
    obtain ⟨s1, s2, he, h1, h2⟩ := seqMatches_append _ _ _ hm
    obtain ⟨c, rfl, hc⟩ := seqMatches_letter s2 h2
    rw [he, List.getLast?_concat] at hnl
    injection hnl with hnl
    subst hnl
    exact absurd hc (by decide)

/-- A string whose last character is a newline is its chomped form with
the newline appended. -/
theorem chomp_concat (s : Str) (h : s.getLast? = some '\n') :
    s = chomp s ++ ['\n'] := by
  have hne : s ≠ [] := by
    intro he
    rw [he] at h
    simp at h
  have hg : s.getLast hne = '\n' := by
    have he := List.getLast?_eq_getLast s hne
    rw [he] at h
    injection h
  rw [chomp, if_pos h]
  nth_rewrite 1 [← List.dropLast_concat_getLast hne]
  rw [hg]

/-- Either chomping is the identity or it removes one final newline. -/
theorem chomp_cases (s : Str) : chomp s = s ∨ s = chomp s ++ ['\n'] := by
  by_cases h : s.getLast? = some '\n'
  · exact Or.inr (chomp_concat s h)
  · exact Or.inl (by rw [chomp, if_neg h])

/-- Chomping a string not ending in a newline is the identity. -/
theorem chomp_of_no_newline (s : Str) (h : ¬s.getLast? = some '\n') :
    chomp s = s := by
  rw [chomp, if_neg h]

/-- For a pattern none of whose alternatives can exactly match a
newline-ended string, matching with the $ allowance is exact matching of
the chomped string. -/
theorem patMatches_eq_chomp : ∀ (alts : List (List Tok)),
    (∀ a ∈ alts, ∀ u : Str, u.getLast? = some '\n' →
      seqMatches a u = false) →
    ∀ s, patMatches alts s = exactMatches alts (chomp s)
  | [], _, _ => rfl
  | a :: rest, h, s => by
      have ih := patMatches_eq_chomp rest
        (fun b hb => h b (List.mem_cons_of_mem a hb)) s
      rw [patMatches, List.any_cons, exactMatches, List.any_cons]
      rw [patMatches, exactMatches] at ih
      rw [ih]
      by_cases hnl : s.getLast? = some '\n'
      · have hb : (s.getLast? == some '\n') = true := beq_iff_eq.mpr hnl
        rw [h a (List.mem_cons_self a rest) s hnl, hb, chomp, if_pos hnl]
        simp
      · have hb : (s.getLast? == some '\n') = false := by
          cases hx : s.getLast? == some '\n' with
          | false => rfl
          | true => exact absurd (beq_iff_eq.mp hx) hnl
        rw [hb, chomp, if_neg hnl]
        simp

/-- Matching the standard pattern is exact matching of the chomped
string. -/
theorem patMatches_chomp_std (s : Str) :
    patMatches standardPat s = exactMatches standardPat (chomp s) := by
  refine patMatches_eq_chomp standardPat ?_ s
  intro a ha u hnl
  simp only [standardPat, List.mem_cons, List.not_mem_nil, or_false] at ha
  rcases ha with rfl | rfl <;>
  · rw [standardAlt]
    exact seqMatches_newline_digit _ _ (by decide) u hnl

/-- Matching the taxi pattern is exact matching of the chomped string. -/
theorem patMatches_chomp_taxi (s : Str) :
    patMatches taxiPat s = exactMatches taxiPat (chomp s) := by
  refine patMatches_eq_chomp taxiPat ?_ s
  intro a ha u hnl
  simp only [taxiPat, List.mem_cons, List.not_mem_nil, or_false] at ha
  rcases ha with rfl | rfl <;>
  · rw [taxiAlt]
    exact seqMatches_newline_digit _ _ (by decide) u hnl

/-- Matching the trailer pattern is exact matching of the chomped
string. -/
theorem patMatches_chomp_trailer (s : Str) :
    patMatches trailerPat s = exactMatches trailerPat (chomp s) := by
  refine patMatches_eq_chomp trailerPat ?_ s
  intro a ha u hnl
  simp only [trailerPat, List.mem_cons, List.not_mem_nil, or_false] at ha
  rcases ha with rfl | rfl <;>
  · rw [trailerAlt]
    exact seqMatches_newline_digit _ _ (by decide) u hnl

/-- Matching the motorcycle pattern is exact matching of the chomped
string. -/
theorem patMatches_chomp_moto (s : Str) :
    patMatches motorcyclePat s = exactMatches motorcyclePat (chomp s) := by
  refine patMatches_eq_chomp motorcyclePat ?_ s
  intro a ha u hnl
  simp only [motorcyclePat, List.mem_cons, List.not_mem_nil, or_false] at ha
  rcases ha with rfl | rfl <;>
  · rw [motorcycleAlt]
    exact seqMatches_newline_digit _ _ (by decide) u hnl

/-- Matching the transit pattern is exact matching of the chomped
string. -/
theorem patMatches_chomp_transit (s : Str) :
    patMatches transitPat s = exactMatches transitPat (chomp s) := by
  refine patMatches_eq_chomp transitPat ?_ s
  intro a ha u hnl
  simp only [transitPat, List.mem_cons, List.not_mem_nil, or_false] at ha
  subst ha
  rw [← List.append_assoc]
  exact seqMatches_newline_letter _ u hnl

/-- Matching the diplomatic pattern is exact matching of the chomped
string. -/
theorem patMatches_chomp_dipl (s : Str) :
    patMatches diplomaticPat s = exactMatches diplomaticPat (chomp s) := by
  refine patMatches_eq_chomp diplomaticPat ?_ s
  intro a ha u hnl
  simp only [diplomaticPat, List.mem_cons, List.not_mem_nil, or_false] at ha
  rcases ha with rfl | rfl | rfl | rfl <;>
  · rw [diplomaticAlt, ← List.append_assoc]
    exact seqMatches_newline_digit _ _ (by decide) u hnl

/-- The last n characters of an s2-suffixed string, when s2 has exactly
n characters, are s2. -/
theorem takeLast_append (n : Nat) (s1 s2 : Str) (h : s2.length = n) :
    takeLast n (s1 ++ s2) = s2 := by
  have hlen : (s1 ++ s2).length - n = s1.length := by
    simp [List.length_append, h]
  rw [takeLast, hlen, List.drop_left]

/-- Taking the last n characters commutes with dropping a prefix when the
suffix is long enough. -/
theorem takeLast_append_of_le (n : Nat) (s1 s2 : Str) (h : n ≤ s2.length) :
    takeLast n (s1 ++ s2) = takeLast n s2 := by
  have hlen : (s1 ++ s2).length - n = s1.length + (s2.length - n) := by
    simp [List.length_append]; omega
  rw [takeLast, hlen, List.drop_append, takeLast]

/-- The last n characters of a string of length at least n number n. -/
theorem takeLast_length (n : Nat) (s : Str) (h : n ≤ s.length) :
    (takeLast n s).length = n := by
  simp [takeLast, List.length_drop]; omega

/-- Every character of the last n characters is a character of the
string. -/
theorem takeLast_subset (n : Nat) (s : Str) (c : Char)
    (hc : c ∈ takeLast n s) : c ∈ s :=
  List.mem_of_mem_drop hc

/-- A decimal digit is never the separator when the separator is not a
digit. -/
theorem digit_ne_sep (c : Char) (h : isDigitChar c = true) (sep : Char)
    (hsep : isDigitChar sep = false) : (c == sep) = false := by
  cases hbe : c == sep with
  | false => rfl
  | true => exact absurd h (by rw [beq_iff_eq.mp hbe, hsep]; simp)

/-- Splitting a string that avoids the separator yields the whole
string as the single piece. -/
theorem splitOnChar_no_sep (sep : Char) : ∀ (l : Str),
    (∀ c ∈ l, (c == sep) = false) → splitOnChar sep l = [l]
  | [], _ => rfl
  | c :: cs, h => by
      have hc : (c == sep) = false := h c (List.mem_cons_self c cs)
      have ih := splitOnChar_no_sep sep cs
        (fun d hd => h d (List.mem_cons_of_mem c hd))
      simp [splitOnChar, hc, ih]

/-- Splitting around a single separator occurrence yields the two
surrounding pieces. -/
theorem splitOnChar_split (sep : Char) : ∀ (a b : Str),
    (∀ c ∈ a, (c == sep) = false) → (∀ c ∈ b, (c == sep) = false) →
    splitOnChar sep (a ++ sep :: b) = [a, b]
  | [], b, _, hb => by
      simp [splitOnChar, splitOnChar_no_sep sep b hb]
  | c :: a, b, ha, hb => by
      have hc : (c == sep) = false := ha c (List.mem_cons_self c a)
      have ih := splitOnChar_split sep a b
        (fun d hd => ha d (List.mem_cons_of_mem c hd)) hb
      simp [splitOnChar, hc, ih]

/-- Region extraction for a standard plate applies the exactly-8 rule. -/
theorem extractRegion_standard (p : Str) :
    extractRegion PlateType.standard p = some (some (regionExactly8 p)) := by
  simp [extractRegion]

/-- Region extraction for a taxi plate applies the at-most-8 rule. -/
theorem extractRegion_taxi (p : Str) :
    extractRegion PlateType.taxi p = some (some (regionAtMost8 p)) := by
  simp [extractRegion]

/-- Region extraction for a trailer plate applies the at-most-8 rule. -/
theorem extractRegion_trailer (p : Str) :
    extractRegion PlateType.trailer p = some (some (regionAtMost8 p)) := by
  simp [extractRegion]

/-- Region extraction for a motorcycle plate applies the at-most-8 rule. -/
theorem extractRegion_motorcycle (p : Str) :
    extractRegion PlateType.motorcycle p = some (some (regionAtMost8 p)) := by
  simp [extractRegion]

/-- A transit plate has no region code. -/
theorem extractRegion_transit (p : Str) :
    extractRegion PlateType.transit p = some none := by
  simp [extractRegion]

/-- Region extraction for a diplomatic plate, on a string with exactly
one occurrence of Д, yields the piece after the Д. -/
theorem extractRegion_dipl (a b : Str)
    (ha : ∀ c ∈ a, (c == cyrD) = false)
    (hb : ∀ c ∈ b, (c == cyrD) = false) :
    extractRegion PlateType.diplomatic (a ++ cyrD :: b) = some (some b) := by
  have hsplit : splitOnChar cyrD (a ++ cyrD :: b) = [a, b] :=
    splitOnChar_split cyrD a b ha hb
  simp [extractRegion, hsplit]

/-- A match of one diplomatic alternative splits the string into leading
digits, the Д literal, and trailing digits. -/
theorem diplAlt_decomp (j k : Nat) (s : Str)
    (h : seqMatches (diplomaticAlt j k) s = true) :
    ∃ a b, s = a ++ cyrD :: b ∧ (∀ c ∈ a, isDigitChar c = true) ∧
      (∀ c ∈ b, isDigitChar c = true) ∧ a.length = j ∧ b.length = k := by
  rw [diplomaticAlt] at h
  obtain ⟨s1, s2, rfl, h1, h2⟩ := seqMatches_append _ _ _ h
  obtain ⟨sD, s3, rfl, hD, h3⟩ := seqMatches_append _ _ _ h2
  have hsD := seqMatches_lit cyrD sD hD
  subst hsD
  obtain ⟨hl1, ha1⟩ := seqMatches_replicate j Tok.digit s1 h1
  obtain ⟨hl3, ha3⟩ := seqMatches_replicate k Tok.digit s3 h3
  exact ⟨s1, s3, by simp, fun c hc => ha1 c hc, fun c hc => ha3 c hc,
    hl1, hl3⟩

/-- An exact match of the diplomatic pattern splits the string into 3
or 4 leading digits, the Д literal, and 2 or 3 trailing digits. -/
theorem exact_dipl_decomp (s : Str)
    (h : exactMatches diplomaticPat s = true) :
    ∃ a b, s = a ++ cyrD :: b ∧ (∀ c ∈ a, isDigitChar c = true) ∧
      (∀ c ∈ b, isDigitChar c = true) ∧ (a.length = 3 ∨ a.length = 4) ∧
      (b.length = 2 ∨ b.length = 3) := by
  simp only [exactMatches, diplomaticPat, List.any_eq_true] at h
  obtain ⟨x, hx, hm⟩ := h
  simp only [List.mem_cons, List.not_mem_nil, or_false] at hx
  rcases hx with rfl | rfl | rfl | rfl <;>
  · obtain ⟨a, b, rfl, ha, hb, hla, hlb⟩ := diplAlt_decomp _ _ _ hm
    exact ⟨a, b, rfl, ha, hb, by omega, by omega⟩

/-- A diplomatic match under the $ allowance splits the string into
leading digits, the Д literal, and a tail free of Д which consists of 2
or 3 digits whenever the string does not end in a newline. -/
theorem dipl_decomp (s : Str) (h : patMatches diplomaticPat s = true) :
    ∃ a b, s = a ++ cyrD :: b ∧ (∀ c ∈ a, isDigitChar c = true) ∧
      (∀ c ∈ b, (c == cyrD) = false) ∧
      (¬s.getLast? = some '\n' →
        (∀ c ∈ b, isDigitChar c = true) ∧ (b.length = 2 ∨ b.length = 3)) := by
  rw [patMatches_chomp_dipl] at h
  obtain ⟨a, b0, he, ha, hb0, hla, hlb0⟩ := exact_dipl_decomp _ h
  by_cases hnl : s.getLast? = some '\n'
  · refine ⟨a, b0 ++ ['\n'], ?_, ha, ?_, fun hc => absurd hnl hc⟩
    · rw [chomp_concat s hnl, he, List.append_assoc, List.cons_append]
    · intro c hc
      rcases List.mem_append.mp hc with hc | hc
      · exact digit_ne_sep c (hb0 c hc) cyrD (by decide)
      · rcases List.mem_singleton.mp hc with rfl
        decide
  · rw [chomp_of_no_newline s hnl] at he
    refine ⟨a, b0, he, ha, ?_, fun _ => ⟨hb0, hlb0⟩⟩
    intro c hc
    exact digit_ne_sep c (hb0 c hc) cyrD (by decide)

/-- A match of a pattern alternative ending in a digit run splits the
string into a prefix of the alternative's fixed-part length and a digit
suffix of the run's length. -/
theorem seqMatches_digit_suffix (pre : List Tok) (k : Nat) (s : Str)
    (h : seqMatches (pre ++ List.replicate k Tok.digit) s = true) :
    ∃ s1 s2, s = s1 ++ s2 ∧ (∀ c ∈ s2, isDigitChar c = true) ∧
      s2.length = k ∧ s1.length = pre.length := by
  obtain ⟨s1, s2, rfl, h1, h2⟩ := seqMatches_append _ _ _ h
  obtain ⟨hl, hall⟩ := seqMatches_replicate k Tok.digit s2 h2
  exact ⟨s1, s2, rfl, fun c hc => hall c hc, hl, seqMatches_length _ _ h1⟩

/-- An exact standard match has a 6-character prefix and a digit suffix of 2 or
3 characters. -/
theorem std_digit_suffix (s : Str) (h : exactMatches standardPat s = true) :
    ∃ s1 s2, s = s1 ++ s2 ∧ (∀ c ∈ s2, isDigitChar c = true) ∧
      (s2.length = 2 ∨ s2.length = 3) ∧ s1.length = 6 := by
  simp only [exactMatches, standardPat, List.any_eq_true] at h
  obtain ⟨x, hx, hm⟩ := h
  simp only [List.mem_cons, List.not_mem_nil, or_false] at hx
  rcases hx with rfl | rfl <;>
  · rw [standardAlt] at hm
    obtain ⟨s1, s2, rfl, hd, hl, hp⟩ := seqMatches_digit_suffix _ _ _ hm
    exact ⟨s1, s2, rfl, hd, by omega, by rw [hp]; decide⟩

/-- An exact taxi match has a 2-character prefix and a digit suffix of 5 or 6
characters. -/
theorem taxi_digit_suffix (s : Str) (h : exactMatches taxiPat s = true) :
    ∃ s1 s2, s = s1 ++ s2 ∧ (∀ c ∈ s2, isDigitChar c = true) ∧
      (s2.length = 2 ∨ s2.length = 3) ∧ s1.length = 5 := by
  simp only [exactMatches, taxiPat, List.any_eq_true] at h
  obtain ⟨x, hx, hm⟩ := h
  simp only [List.mem_cons, List.not_mem_nil, or_false] at hx
  rcases hx with rfl | rfl <;>
  · rw [taxiAlt] at hm
    obtain ⟨s1, s2, rfl, hd, hl, hp⟩ := seqMatches_digit_suffix _ _ _ hm
    exact ⟨s1, s2, rfl, hd, by omega, by rw [hp]; decide⟩

/-- An exact trailer match has a 6-character prefix and a digit suffix of 2 or
3 characters. -/
theorem trailer_digit_suffix (s : Str) (h : exactMatches trailerPat s = true) :
    ∃ s1 s2, s = s1 ++ s2 ∧ (∀ c ∈ s2, isDigitChar c = true) ∧
      (s2.length = 2 ∨ s2.length = 3) ∧ s1.length = 6 := by
  simp only [exactMatches, trailerPat, List.any_eq_true] at h
  obtain ⟨x, hx, hm⟩ := h
  simp only [List.mem_cons, List.not_mem_nil, or_false] at hx
  rcases hx with rfl | rfl <;>
  · rw [trailerAlt] at hm
    obtain ⟨s1, s2, rfl, hd, hl, hp⟩ := seqMatches_digit_suffix _ _ _ hm
    exact ⟨s1, s2, rfl, hd, by omega, by rw [hp]; decide⟩

/-- An exact motorcycle match has a 6-character prefix and a digit suffix of 2
or 3 characters. -/
theorem moto_digit_suffix (s : Str) (h : exactMatches motorcyclePat s = true) :
    ∃ s1 s2, s = s1 ++ s2 ∧ (∀ c ∈ s2, isDigitChar c = true) ∧
      (s2.length = 2 ∨ s2.length = 3) ∧ s1.length = 6 := by
  simp only [exactMatches, motorcyclePat, List.any_eq_true] at h
  obtain ⟨x, hx, hm⟩ := h
  simp only [List.mem_cons, List.not_mem_nil, or_false] at hx
  rcases hx with rfl | rfl <;>
  · rw [motorcycleAlt] at hm
    obtain ⟨s1, s2, rfl, hd, hl, hp⟩ := seqMatches_digit_suffix _ _ _ hm
    exact ⟨s1, s2, rfl, hd, by omega, by rw [hp]; decide⟩

/-- The length added by a chomped trailing newline. -/
theorem chomp_length_succ (s : Str) (h : s = chomp s ++ ['\n']) :
    s.length = (chomp s).length + 1 := by
  conv_lhs => rw [h]
  rw [List.length_append]
  rfl

/-- The possible lengths of a standard match (the last case from the
trailing-newline allowance of the $ anchor). -/
theorem std_length (s : Str) (h : patMatches standardPat s = true) :
    s.length = 8 ∨ s.length = 9 ∨ s.length = 10 := by
  rw [patMatches_chomp_std] at h
  obtain ⟨s1, s2, he, _, hl, hp⟩ := std_digit_suffix _ h
  have hc : (chomp s).length = 8 ∨ (chomp s).length = 9 := by
    rw [he, List.length_append, hp]; omega
  rcases chomp_cases s with hcc | hcc
  · rw [← hcc]
    rcases hc with hc | hc <;> omega
  · have hlen := chomp_length_succ s hcc
    rcases hc with hc | hc <;> omega

/-- The possible lengths of a taxi match (the last case from the
trailing-newline allowance of the $ anchor). -/
theorem taxi_length (s : Str) (h : patMatches taxiPat s = true) :
    s.length = 7 ∨ s.length = 8 ∨ s.length = 9 := by
  rw [patMatches_chomp_taxi] at h
  obtain ⟨s1, s2, he, _, hl, hp⟩ := taxi_digit_suffix _ h
  have hc : (chomp s).length = 7 ∨ (chomp s).length = 8 := by
    rw [he, List.length_append, hp]; omega
  rcases chomp_cases s with hcc | hcc
  · rw [← hcc]
    rcases hc with hc | hc <;> omega
  · have hlen := chomp_length_succ s hcc
    rcases hc with hc | hc <;> omega

/-- The possible lengths of a trailer match (the last case from the
trailing-newline allowance of the $ anchor). -/
theorem trailer_length (s : Str) (h : patMatches trailerPat s = true) :
    s.length = 8 ∨ s.length = 9 ∨ s.length = 10 := by
  rw [patMatches_chomp_trailer] at h
  obtain ⟨s1, s2, he, _, hl, hp⟩ := trailer_digit_suffix _ h
  have hc : (chomp s).length = 8 ∨ (chomp s).length = 9 := by
    rw [he, List.length_append, hp]; omega
  rcases chomp_cases s with hcc | hcc
  · rw [← hcc]
    rcases hc with hc | hc <;> omega
  · have hlen := chomp_length_succ s hcc
    rcases hc with hc | hc <;> omega

/-- The possible lengths of a motorcycle match (the last case from the
trailing-newline allowance of the $ anchor). -/
theorem moto_length (s : Str) (h : patMatches motorcyclePat s = true) :
    s.length = 8 ∨ s.length = 9 ∨ s.length = 10 := by
  rw [patMatches_chomp_moto] at h
  obtain ⟨s1, s2, he, _, hl, hp⟩ := moto_digit_suffix _ h
  have hc : (chomp s).length = 8 ∨ (chomp s).length = 9 := by
    rw [he, List.length_append, hp]; omega
  rcases chomp_cases s with hcc | hcc
  · rw [← hcc]
    rcases hc with hc | hc <;> omega
  · have hlen := chomp_length_succ s hcc
    rcases hc with hc | hc <;> omega

/-- When the standard pattern matches the normalized input, the loop
returns on its first iteration with the standard result. -/
theorem classify_standard (s : Str)
    (h : patMatches standardPat (normalize s) = true) :
    validate_russian_plate s = some
      { is_valid := true, plate_type := some PlateType.standard,
        region_code := some (regionExactly8 (normalize s)),
        message := validMessage PlateType.standard } := by
  rw [validate_russian_plate, patterns]
  simp [classifyLoop, h, extractRegion_standard]

/-- When the taxi pattern is the first to match, the loop returns the
taxi result. -/
theorem classify_taxi (s : Str)
    (h0 : patMatches standardPat (normalize s) = false)
    (h : patMatches taxiPat (normalize s) = true) :
    validate_russian_plate s = some
      { is_valid := true, plate_type := some PlateType.taxi,
        region_code := some (regionAtMost8 (normalize s)),
        message := validMessage PlateType.taxi } := by
  rw [validate_russian_plate, patterns]
  simp [classifyLoop, h0, h, extractRegion_taxi]

/-- When the trailer pattern is the first to match, the loop returns the
trailer result. -/
theorem classify_trailer (s : Str)
    (h0 : patMatches standardPat (normalize s) = false)
    (h1 : patMatches taxiPat (normalize s) = false)
    (h : patMatches trailerPat (normalize s) = true) :
    validate_russian_plate s = some
      { is_valid := true, plate_type := some PlateType.trailer,
        region_code := some (regionAtMost8 (normalize s)),
        message := validMessage PlateType.trailer } := by
  rw [validate_russian_plate, patterns]
  simp [classifyLoop, h0, h1, h, extractRegion_trailer]

/-- When the motorcycle pattern is the first to match, the loop returns
the motorcycle result. -/
theorem classify_motorcycle (s : Str)
    (h0 : patMatches standardPat (normalize s) = false)
    (h1 : patMatches taxiPat (normalize s) = false)
    (h2 : patMatches trailerPat (normalize s) = false)
    (h : patMatches motorcyclePat (normalize s) = true) :
    validate_russian_plate s = some
      { is_valid := true, plate_type := some PlateType.motorcycle,
        region_code := some (regionAtMost8 (normalize s)),
        message := validMessage PlateType.motorcycle } := by
  rw [validate_russian_plate, patterns]
  simp [classifyLoop, h0, h1, h2, h, extractRegion_motorcycle]

/-- When the transit pattern is the first to match, the loop returns the
transit result, with no region code. -/
theorem classify_transit (s : Str)
    (h0 : patMatches standardPat (normalize s) = false)
    (h1 : patMatches taxiPat (normalize s) = false)
    (h2 : patMatches trailerPat (normalize s) = false)
    (h3 : patMatches motorcyclePat (normalize s) = false)
    (h : patMatches transitPat (normalize s) = true) :
    validate_russian_plate s = some
      { is_valid := true, plate_type := some PlateType.transit,
        region_code := none, message := validMessage PlateType.transit } := by
  rw [validate_russian_plate, patterns]
  simp [classifyLoop, h0, h1, h2, h3, h, extractRegion_transit]

/-- When only the diplomatic pattern matches, the loop returns the
diplomatic result whose region code is the block after the Д; that
block consists of 2 or 3 digits whenever the normalized string does not
end in a newline. -/
theorem classify_diplomatic (s : Str)
    (h0 : patMatches standardPat (normalize s) = false)
    (h1 : patMatches taxiPat (normalize s) = false)
    (h2 : patMatches trailerPat (normalize s) = false)
    (h3 : patMatches motorcyclePat (normalize s) = false)
    (h4 : patMatches transitPat (normalize s) = false)
    (h : patMatches diplomaticPat (normalize s) = true) :
    ∃ a b, normalize s = a ++ cyrD :: b ∧
      (∀ c ∈ a, isDigitChar c = true) ∧
      (∀ c ∈ b, (c == cyrD) = false) ∧
      (¬(normalize s).getLast? = some '\n' →
        (∀ c ∈ b, isDigitChar c = true) ∧ (b.length = 2 ∨ b.length = 3)) ∧
      validate_russian_plate s = some
        { is_valid := true, plate_type := some PlateType.diplomatic,
          region_code := some b,
          message := validMessage PlateType.diplomatic } := by
  obtain ⟨a, b, he, ha, hb, hcond⟩ := dipl_decomp _ h
  refine ⟨a, b, he, ha, hb, hcond, ?_⟩
  rw [validate_russian_plate, patterns]
  simp only [classifyLoop, h0, h1, h2, h3, h4, h, Bool.false_eq_true,
    if_false, if_true]
  rw [he, extractRegion_dipl a b
    (fun c hc => digit_ne_sep c (ha c hc) cyrD (by decide)) hb]

/-- When no pattern matches, the loop falls through to the invalid
result. -/
theorem classify_none (s : Str)
    (h0 : patMatches standardPat (normalize s) = false)
    (h1 : patMatches taxiPat (normalize s) = false)
    (h2 : patMatches trailerPat (normalize s) = false)
    (h3 : patMatches motorcyclePat (normalize s) = false)
    (h4 : patMatches transitPat (normalize s) = false)
    (h5 : patMatches diplomaticPat (normalize s) = false) :
    validate_russian_plate s = some invalidResult := by
  rw [validate_russian_plate, patterns]
  simp [classifyLoop, h0, h1, h2, h3, h4, h5]

/-- The exactly-8 region rule applied to a match with a 6-character
prefix and a digit suffix of matching width yields the digit suffix. -/
theorem region_exactly8_of_suffix (s1 s2 : Str)
    (hd : ∀ c ∈ s2, isDigitChar c = true)
    (hl : s2.length = 2 ∨ s2.length = 3) (hp : s1.length = 6) :
    (∀ c ∈ regionExactly8 (s1 ++ s2), isDigitChar c = true) ∧
    ((regionExactly8 (s1 ++ s2)).length = 2 ∨
      (regionExactly8 (s1 ++ s2)).length = 3) := by
  rcases hl with hl | hl
  · have h8 : (s1 ++ s2).length = 8 := by
      rw [List.length_append, hp, hl]
    rw [regionExactly8, if_pos (by simpa using h8), takeLast_append 2 s1 s2 hl]
    exact ⟨hd, Or.inl hl⟩
  · have h9 : ¬(s1 ++ s2).length = 8 := by
      rw [List.length_append, hp, hl]; omega
    rw [regionExactly8, if_neg (by simpa using h9), takeLast_append 3 s1 s2 hl]
    exact ⟨hd, Or.inr hl⟩

/-- The at-most-8 region rule applied to a match with a 6-character
prefix and a digit suffix of matching width yields the digit suffix. -/
theorem region_atMost8_of_suffix (s1 s2 : Str)
    (hd : ∀ c ∈ s2, isDigitChar c = true)
    (hl : s2.length = 2 ∨ s2.length = 3) (hp : s1.length = 6) :
    (∀ c ∈ regionAtMost8 (s1 ++ s2), isDigitChar c = true) ∧
    ((regionAtMost8 (s1 ++ s2)).length = 2 ∨
      (regionAtMost8 (s1 ++ s2)).length = 3) := by
  rcases hl with hl | hl
  · have h8 : (s1 ++ s2).length ≤ 8 := by
      rw [List.length_append, hp, hl]
    rw [regionAtMost8, if_pos h8, takeLast_append 2 s1 s2 hl]
    exact ⟨hd, Or.inl hl⟩
  · have h9 : ¬(s1 ++ s2).length ≤ 8 := by
      rw [List.length_append, hp, hl]; omega
    rw [regionAtMost8, if_neg h9, takeLast_append 3 s1 s2 hl]
    exact ⟨hd, Or.inr hl⟩

/-- The at-most-8 region rule on an exact taxi match yields 2 digit
characters. -/
theorem region_taxi_digits (p : Str) (h : exactMatches taxiPat p = true) :
    (∀ c ∈ regionAtMost8 p, isDigitChar c = true) ∧
    (regionAtMost8 p).length = 2 := by
  obtain ⟨s1, s2, rfl, hd, hl, hp⟩ := taxi_digit_suffix p h
  have hle : (s1 ++ s2).length ≤ 8 := by
    rw [List.length_append, hp]; omega
  have h2 : 2 ≤ s2.length := by omega
  rw [regionAtMost8, if_pos hle, takeLast_append_of_le 2 s1 s2 h2]
  refine ⟨?_, takeLast_length 2 s2 h2⟩
  intro c hc
  exact hd c (takeLast_subset 2 s2 c hc)

/-- Full case analysis of validate_russian_plate: it always returns a
value, which is either the invalid result or a valid result for some
plate type; a present region code consists of 2 or 3 digit characters
whenever the normalized input does not end in a newline. -/
theorem classify_full (s : Str) :
    ∃ r, validate_russian_plate s = some r ∧
      (r = invalidResult ∨
        ∃ ty, r.is_valid = true ∧ r.plate_type = some ty ∧
          r.message = validMessage ty ∧
          (r.region_code = none ∨
            ∃ rc, r.region_code = some rc ∧
              (¬(normalize s).getLast? = some '\n' →
                (∀ c ∈ rc, isDigitChar c = true) ∧
                (rc.length = 2 ∨ rc.length = 3)))) := by
  by_cases h0 : patMatches standardPat (normalize s) = true
  · refine ⟨_, classify_standard s h0,
      Or.inr ⟨PlateType.standard, rfl, rfl, rfl, Or.inr ⟨_, rfl, ?_⟩⟩⟩
    intro hnl
    rw [patMatches_chomp_std, chomp_of_no_newline _ hnl] at h0
    obtain ⟨s1, s2, he, hd, hl, hp⟩ := std_digit_suffix _ h0
    rw [he]
    exact region_exactly8_of_suffix s1 s2 hd hl hp
  rw [Bool.not_eq_true] at h0
  by_cases h1 : patMatches taxiPat (normalize s) = true
  · refine ⟨_, classify_taxi s h0 h1,
      Or.inr ⟨PlateType.taxi, rfl, rfl, rfl, Or.inr ⟨_, rfl, ?_⟩⟩⟩
    intro hnl
    rw [patMatches_chomp_taxi, chomp_of_no_newline _ hnl] at h1
    obtain ⟨hd', hl'⟩ := region_taxi_digits _ h1
    exact ⟨hd', Or.inl hl'⟩
  rw [Bool.not_eq_true] at h1
  by_cases h2 : patMatches trailerPat (normalize s) = true
  · refine ⟨_, classify_trailer s h0 h1 h2,
      Or.inr ⟨PlateType.trailer, rfl, rfl, rfl, Or.inr ⟨_, rfl, ?_⟩⟩⟩
    intro hnl
    rw [patMatches_chomp_trailer, chomp_of_no_newline _ hnl] at h2
    obtain ⟨s1, s2, he, hd, hl, hp⟩ := trailer_digit_suffix _ h2
    rw [he]
    exact region_atMost8_of_suffix s1 s2 hd hl hp
  rw [Bool.not_eq_true] at h2
  by_cases h3 : patMatches motorcyclePat (normalize s) = true
  · refine ⟨_, classify_motorcycle s h0 h1 h2 h3,
      Or.inr ⟨PlateType.motorcycle, rfl, rfl, rfl, Or.inr ⟨_, rfl, ?_⟩⟩⟩
    intro hnl
    rw [patMatches_chomp_moto, chomp_of_no_newline _ hnl] at h3
    obtain ⟨s1, s2, he, hd, hl, hp⟩ := moto_digit_suffix _ h3
    rw [he]
    exact region_atMost8_of_suffix s1 s2 hd hl hp
  rw [Bool.not_eq_true] at h3
  by_cases h4 : patMatches transitPat (normalize s) = true
  · exact ⟨_, classify_transit s h0 h1 h2 h3 h4,
      Or.inr ⟨PlateType.transit, rfl, rfl, rfl, Or.inl rfl⟩⟩
  rw [Bool.not_eq_true] at h4
  by_cases h5 : patMatches diplomaticPat (normalize s) = true
  · obtain ⟨a, b, he, ha, hb, hcond, hv⟩ :=
      classify_diplomatic s h0 h1 h2 h3 h4 h5
    exact ⟨_, hv,
      Or.inr ⟨PlateType.diplomatic, rfl, rfl, rfl,
        Or.inr ⟨b, rfl, hcond⟩⟩⟩
  rw [Bool.not_eq_true] at h5
  exact ⟨_, classify_none s h0 h1 h2 h3 h4 h5, Or.inl rfl⟩

/-- Conflicting patterns that both reduce to exact matching of the
chomped string never match a common string. -/
theorem patConflict_and_false (p q : List (List Tok))
    (h : patConflict p q = true)
    (hp : ∀ u, patMatches p u = exactMatches p (chomp u))
    (hq : ∀ u, patMatches q u = exactMatches q (chomp u))
    (s : Str) : (patMatches p s && patMatches q s) = false := by
  rw [hp s, hq s]
  cases hps : exactMatches p (chomp s) with
  | false => simp
  | true =>
    cases hqs : exactMatches q (chomp s) with
    | false => simp
    | true => exact absurd ⟨hps, hqs⟩ (patConflict_sound p q h (chomp s))

/-
  Helper lemmas about the counters.
-/

/-- Recording one classification preserves the counters invariant. -/
theorem recordValidation_invariant (st : Stats) (r : ClassificationResult)
    (h : st.total = st.valid + st.invalid) :
    (recordValidation st r).total =
      (recordValidation st r).valid + (recordValidation st r).invalid := by
  rw [recordValidation]
  cases r.is_valid <;> simp <;> omega

/-- The batch loop preserves the counters invariant. -/
theorem batchLoop_invariant : ∀ (l : List Str) (st : Stats),
    st.total = st.valid + st.invalid →
    (batchLoop l st).2.total =
      (batchLoop l st).2.valid + (batchLoop l st).2.invalid
  | [], _, h => h
  | p :: rest, st, h => by
      rw [batchLoop]
      cases hv : validate_russian_plate p with
      | none => exact batchLoop_invariant rest st h
      | some r =>
        exact batchLoop_invariant rest _ (recordValidation_invariant st r h)

/-- The POST endpoint preserves the counters invariant. -/
theorem post_invariant (raw : Str) (st : Stats)
    (h : st.total = st.valid + st.invalid) :
    (validate_license_plate raw st).2.total =
      (validate_license_plate raw st).2.valid +
        (validate_license_plate raw st).2.invalid := by
  rw [validate_license_plate]
  split
  · exact h
  split
  · exact h
  split
  · exact h
  exact recordValidation_invariant st _ h

/-- The single-plate GET endpoint preserves the counters invariant. -/
theorem getOne_invariant (raw : Str) (st : Stats)
    (h : st.total = st.valid + st.invalid) :
    (get_license_plate_info raw st).2.total =
      (get_license_plate_info raw st).2.valid +
        (get_license_plate_info raw st).2.invalid := by
  rw [get_license_plate_info]
  split
  · exact h
  split
  · exact h
  split
  · exact h
  exact recordValidation_invariant st _ h

/-- The batch GET endpoint preserves the counters invariant. -/
theorem batch_invariant (plates : Str) (st : Stats)
    (h : st.total = st.valid + st.invalid) :
    (validate_multiple_plates plates st).2.total =
      (validate_multiple_plates plates st).2.valid +
        (validate_multiple_plates plates st).2.invalid := by
  rw [validate_multiple_plates]
  split
  · exact h
  split
  · exact h
  exact batchLoop_invariant _ st h

/-
  The claims.
-/

/-- C1: classify normalizes its input (uppercase, then remove all spaces
and hyphens) and tests the normalized string against the six patterns in
the fixed order standard, taxi, trailer, motorcycle, transit,
diplomatic; the first pattern that matches determines the returned plate
type, so a string matching several patterns is classified as the
earliest matching type, and a string matching none yields the invalid
result. -/
theorem spec_c1_order (s : Str) :
    (patMatches standardPat (normalize s) = true →
      ∃ r, validate_russian_plate s = some r ∧
        r.plate_type = some PlateType.standard) ∧
    (patMatches standardPat (normalize s) = false →
      patMatches taxiPat (normalize s) = true →
      ∃ r, validate_russian_plate s = some r ∧
        r.plate_type = some PlateType.taxi) ∧
    (patMatches standardPat (normalize s) = false →
      patMatches taxiPat (normalize s) = false →
      patMatches trailerPat (normalize s) = true →
      ∃ r, validate_russian_plate s = some r ∧
        r.plate_type = some PlateType.trailer) ∧
    (patMatches standardPat (normalize s) = false →
      patMatches taxiPat (normalize s) = false →
      patMatches trailerPat (normalize s) = false →
      patMatches motorcyclePat (normalize s) = true →
      ∃ r, validate_russian_plate s = some r ∧
        r.plate_type = some PlateType.motorcycle) ∧
    (patMatches standardPat (normalize s) = false →
      patMatches taxiPat (normalize s) = false →
      patMatches trailerPat (normalize s) = false →
      patMatches motorcyclePat (normalize s) = false →
      patMatches transitPat (normalize s) = true →
      ∃ r, validate_russian_plate s = some r ∧
        r.plate_type = some PlateType.transit) ∧
    (patMatches standardPat (normalize s) = false →
      patMatches taxiPat (normalize s) = false →
      patMatches trailerPat (normalize s) = false →
      patMatches motorcyclePat (normalize s) = false →
      patMatches transitPat (normalize s) = false →
      patMatches diplomaticPat (normalize s) = true →
      ∃ r, validate_russian_plate s = some r ∧
        r.plate_type = some PlateType.diplomatic) ∧
    (patMatches standardPat (normalize s) = false →
      patMatches taxiPat (normalize s) = false →
      patMatches trailerPat (normalize s) = false →
      patMatches motorcyclePat (normalize s) = false →
      patMatches transitPat (normalize s) = false →
      patMatches diplomaticPat (normalize s) = false →
      validate_russian_plate s = some invalidResult) := by
  refine ⟨?_, ?_, ?_, ?_, ?_, ?_, ?_⟩
  · intro h0
    exact ⟨_, classify_standard s h0, rfl⟩
  · intro h0 h1
    exact ⟨_, classify_taxi s h0 h1, rfl⟩
  · intro h0 h1 h2
    exact ⟨_, classify_trailer s h0 h1 h2, rfl⟩
  · intro h0 h1 h2 h3
    exact ⟨_, classify_motorcycle s h0 h1 h2 h3, rfl⟩
  · intro h0 h1 h2 h3 h4
    exact ⟨_, classify_transit s h0 h1 h2 h3 h4, rfl⟩
  · intro h0 h1 h2 h3 h4 h5
    obtain ⟨a, b, _, _, _, _, hv⟩ := classify_diplomatic s h0 h1 h2 h3 h4 h5
    exact ⟨_, hv, rfl⟩
  · intro h0 h1 h2 h3 h4 h5
    exact classify_none s h0 h1 h2 h3 h4 h5

/-- Witness for C1 at the concrete standard plate А123ВС77. -/
theorem spec_c1_order_witness :
    ∃ r, validate_russian_plate ['А','1','2','3','В','С','7','7'] = some r ∧
      r.plate_type = some PlateType.standard :=
  (spec_c1_order ['А','1','2','3','В','С','7','7']).1 (by decide)

/-- C2: the region code of a classification is, for a standard plate,
the last 2 characters of the normalized string when its length is
exactly 8 and otherwise the last 3; for a taxi, trailer or motorcycle
plate, the last 2 characters when the length is at most 8 and otherwise
the last 3; for a transit plate, no region code; and for a diplomatic
plate, the substring after the literal Д. -/
theorem spec_c2_region_rules (s : Str) (r : ClassificationResult)
    (h : validate_russian_plate s = some r) :
    (r.plate_type = some PlateType.standard →
      r.region_code = some (regionExactly8 (normalize s))) ∧
    (r.plate_type = some PlateType.taxi ∨
     r.plate_type = some PlateType.trailer ∨
     r.plate_type = some PlateType.motorcycle →
      r.region_code = some (regionAtMost8 (normalize s))) ∧
    (r.plate_type = some PlateType.transit → r.region_code = none) ∧
    (r.plate_type = some PlateType.diplomatic →
      ∃ a b, normalize s = a ++ cyrD :: b ∧
        (∀ c ∈ a, (c == cyrD) = false) ∧ r.region_code = some b) := by
  by_cases h0 : patMatches standardPat (normalize s) = true
  · rw [classify_standard s h0] at h
    injection h with h
    subst h
    refine ⟨fun _ => rfl, ?_, ?_, ?_⟩
    · intro hx
      rcases hx with hx | hx | hx <;> simp at hx
    · intro hx; simp at hx
    · intro hx; simp at hx
  rw [Bool.not_eq_true] at h0
  by_cases h1 : patMatches taxiPat (normalize s) = true
  · rw [classify_taxi s h0 h1] at h
    injection h with h
    subst h
    refine ⟨?_, fun _ => rfl, ?_, ?_⟩
    · intro hx; simp at hx
    · intro hx; simp at hx
    · intro hx; simp at hx
  rw [Bool.not_eq_true] at h1
  by_cases h2 : patMatches trailerPat (normalize s) = true
  · rw [classify_trailer s h0 h1 h2] at h
    injection h with h
    subst h
    refine ⟨?_, fun _ => rfl, ?_, ?_⟩
    · intro hx; simp at hx
    · intro hx; simp at hx
    · intro hx; simp at hx
  rw [Bool.not_eq_true] at h2
  by_cases h3 : patMatches motorcyclePat (normalize s) = true
  · rw [classify_motorcycle s h0 h1 h2 h3] at h
    injection h with h
    subst h
    refine ⟨?_, fun _ => rfl, ?_, ?_⟩
    · intro hx; simp at hx
    · intro hx; simp at hx
    · intro hx; simp at hx
  rw [Bool.not_eq_true] at h3
  by_cases h4 : patMatches transitPat (normalize s) = true
  · rw [classify_transit s h0 h1 h2 h3 h4] at h
    injection h with h
    subst h
    refine ⟨?_, ?_, fun _ => rfl, ?_⟩
    · intro hx; simp at hx
    · intro hx
      rcases hx with hx | hx | hx <;> simp at hx
    · intro hx; simp at hx
  rw [Bool.not_eq_true] at h4
  by_cases h5 : patMatches diplomaticPat (normalize s) = true
  · obtain ⟨a, b, he, ha, hb, _, hv⟩ :=
      classify_diplomatic s h0 h1 h2 h3 h4 h5
    rw [hv] at h
    injection h with h
    subst h
    refine ⟨?_, ?_, ?_, ?_⟩
    · intro hx; simp at hx
    · intro hx
      rcases hx with hx | hx | hx <;> simp at hx
    · intro hx; simp at hx
    · intro _
      exact ⟨a, b, he,
        fun c hc => digit_ne_sep c (ha c hc) cyrD (by decide), rfl⟩
  rw [Bool.not_eq_true] at h5
  rw [classify_none s h0 h1 h2 h3 h4 h5] at h
  injection h with h
  subst h
  refine ⟨?_, ?_, ?_, ?_⟩
  · intro hx; simp [invalidResult] at hx
  · intro hx
    rcases hx with hx | hx | hx <;> simp [invalidResult] at hx
  · intro hx; simp [invalidResult] at hx
  · intro hx; simp [invalidResult] at hx

/-- Witness for C2 at the concrete taxi plate АВ12377. -/
theorem spec_c2_region_rules_witness :
    ({ is_valid := true, plate_type := some PlateType.taxi,
       region_code := some ['7','7'],
       message := validMessage PlateType.taxi } :
      ClassificationResult).region_code =
      some (regionAtMost8 (normalize ['А','В','1','2','3','7','7'])) :=
  (spec_c2_region_rules ['А','В','1','2','3','7','7']
    { is_valid := true, plate_type := some PlateType.taxi,
      region_code := some ['7','7'],
      message := validMessage PlateType.taxi }
    (by decide)).2.1 (Or.inl rfl)

/-- C3: the counters start at zero, every recorded classification
increments total and exactly one of valid and invalid, and consequently
total equals valid plus invalid in every state reachable through the
three plate-accepting endpoints. -/
theorem spec_c3_counters :
    initStats.total = 0 ∧ initStats.valid = 0 ∧ initStats.invalid = 0 ∧
    (∀ (st : Stats) (r : ClassificationResult),
      (recordValidation st r).total = st.total + 1 ∧
      (r.is_valid = true →
        (recordValidation st r).valid = st.valid + 1 ∧
        (recordValidation st r).invalid = st.invalid) ∧
      (r.is_valid = false →
        (recordValidation st r).invalid = st.invalid + 1 ∧
        (recordValidation st r).valid = st.valid)) ∧
    (∀ st, Reachable st → st.total = st.valid + st.invalid) := by
  refine ⟨rfl, rfl, rfl, ?_, ?_⟩
  · intro st r
    refine ⟨rfl, ?_, ?_⟩
    · intro h
      constructor <;> simp [recordValidation, h]
    · intro h
      constructor <;> simp [recordValidation, h]
  · intro st h
    induction h with
    | init => rfl
    | post raw st hr ih => exact post_invariant raw st ih
    | getOne raw st hr ih => exact getOne_invariant raw st ih
    | batch plates st hr ih => exact batch_invariant plates st ih

/-- Witness for C3 at the initial state. -/
theorem spec_c3_counters_witness :
    initStats.total = initStats.valid + initStats.invalid :=
  spec_c3_counters.2.2.2.2 initStats Reachable.init

/-- Counterexample to C4: the normalized taxi plate АВ12377 has length
7; the exactly-8 rule takes the last 3 characters while the at-most-8
rule takes the last 2, so the two thresholds are not functionally
identical on the taxi pattern. -/
theorem spec_c4_counterexample :
    patMatches taxiPat ['А','В','1','2','3','7','7'] = true ∧
    regionExactly8 ['А','В','1','2','3','7','7'] = ['3','7','7'] ∧
    regionAtMost8 ['А','В','1','2','3','7','7'] = ['7','7'] ∧
    regionExactly8 ['А','В','1','2','3','7','7'] ≠
      regionAtMost8 ['А','В','1','2','3','7','7'] := by decide

/-- C4 amended: the two region-extraction thresholds agree on every
string matching the trailer or motorcycle pattern, and on every taxi
match of length other than 7; they differ exactly on the length-7 taxi
matches. -/
theorem spec_c4_amended (s : Str)
    (h : patMatches trailerPat s = true ∨
      patMatches motorcyclePat s = true ∨
      (patMatches taxiPat s = true ∧ s.length ≠ 7)) :
    regionExactly8 s = regionAtMost8 s := by
  have hlen : s.length = 8 ∨ s.length = 9 ∨ s.length = 10 := by
    rcases h with h | h | ⟨h, h7⟩
    · exact trailer_length s h
    · exact moto_length s h
    · rcases taxi_length s h with h' | h' | h'
      · exact absurd h' h7
      · exact Or.inl h'
      · exact Or.inr (Or.inl h')
  rw [regionExactly8, regionAtMost8]
  rcases hlen with h8 | h9 | h10
  · rw [if_pos (by simpa using h8), if_pos (by omega)]
  · rw [if_neg (by simp [h9]), if_neg (by omega)]
  · rw [if_neg (by simp [h10]), if_neg (by omega)]

/-- Witness for the amended C4 at the concrete trailer plate АВ123477. -/
theorem spec_c4_amended_witness :
    patMatches trailerPat ['А','В','1','2','3','4','7','7'] = true ∧
    regionExactly8 ['А','В','1','2','3','4','7','7'] =
      regionAtMost8 ['А','В','1','2','3','4','7','7'] :=
  ⟨by decide,
    spec_c4_amended ['А','В','1','2','3','4','7','7'] (Or.inl (by decide))⟩

/-- Counterexample to C5: the normalized string АВ123456 (two plate
letters followed by six digits) is matched both by the taxi pattern and
by the trailer pattern, so the six patterns are not pairwise disjoint. -/
theorem spec_c5_counterexample :
    patMatches taxiPat ['А','В','1','2','3','4','5','6'] = true ∧
    patMatches trailerPat ['А','В','1','2','3','4','5','6'] = true := by
  decide

/-- C5 amended: the six patterns are pairwise disjoint with the single
exception of the taxi and trailer pair, which overlap (on two plate
letters followed by six digits; the evaluation order resolves such
strings to taxi). -/
theorem spec_c5_amended (s : Str) :
    (patMatches standardPat s && patMatches taxiPat s) = false ∧
    (patMatches standardPat s && patMatches trailerPat s) = false ∧
    (patMatches standardPat s && patMatches motorcyclePat s) = false ∧
    (patMatches standardPat s && patMatches transitPat s) = false ∧
    (patMatches standardPat s && patMatches diplomaticPat s) = false ∧
    (patMatches taxiPat s && patMatches motorcyclePat s) = false ∧
    (patMatches taxiPat s && patMatches transitPat s) = false ∧
    (patMatches taxiPat s && patMatches diplomaticPat s) = false ∧
    (patMatches trailerPat s && patMatches motorcyclePat s) = false ∧
    (patMatches trailerPat s && patMatches transitPat s) = false ∧
    (patMatches trailerPat s && patMatches diplomaticPat s) = false ∧
    (patMatches motorcyclePat s && patMatches transitPat s) = false ∧
    (patMatches motorcyclePat s && patMatches diplomaticPat s) = false ∧
    (patMatches transitPat s && patMatches diplomaticPat s) = false :=
  ⟨patConflict_and_false _ _ (by decide)
     patMatches_chomp_std patMatches_chomp_taxi s,
   patConflict_and_false _ _ (by decide)
     patMatches_chomp_std patMatches_chomp_trailer s,
   patConflict_and_false _ _ (by decide)
     patMatches_chomp_std patMatches_chomp_moto s,
   patConflict_and_false _ _ (by decide)
     patMatches_chomp_std patMatches_chomp_transit s,
   patConflict_and_false _ _ (by decide)
     patMatches_chomp_std patMatches_chomp_dipl s,
   patConflict_and_false _ _ (by decide)
     patMatches_chomp_taxi patMatches_chomp_moto s,
   patConflict_and_false _ _ (by decide)
     patMatches_chomp_taxi patMatches_chomp_transit s,
   patConflict_and_false _ _ (by decide)
     patMatches_chomp_taxi patMatches_chomp_dipl s,
   patConflict_and_false _ _ (by decide)
     patMatches_chomp_trailer patMatches_chomp_moto s,
   patConflict_and_false _ _ (by decide)
     patMatches_chomp_trailer patMatches_chomp_transit s,
   patConflict_and_false _ _ (by decide)
     patMatches_chomp_trailer patMatches_chomp_dipl s,
   patConflict_and_false _ _ (by decide)
     patMatches_chomp_moto patMatches_chomp_transit s,
   patConflict_and_false _ _ (by decide)
     patMatches_chomp_moto patMatches_chomp_dipl s,
   patConflict_and_false _ _ (by decide)
     patMatches_chomp_transit patMatches_chomp_dipl s⟩

/-- C6: when the normalized input matches none of the six patterns,
classify returns exactly the invalid result: not valid, no plate type,
no region code, and the fixed invalid-format message. -/
theorem spec_c6_no_match_invalid (s : Str)
    (h : ∀ pr ∈ patterns, patMatches pr.2 (normalize s) = false) :
    validate_russian_plate s = some invalidResult ∧
    invalidResult.is_valid = false ∧
    invalidResult.plate_type = none ∧
    invalidResult.region_code = none ∧
    invalidResult.message = "Некорректный формат номерного знака" := by
  refine ⟨?_, rfl, rfl, rfl, rfl⟩
  refine classify_none s ?_ ?_ ?_ ?_ ?_ ?_
  · exact h (PlateType.standard, standardPat) (by simp [patterns])
  · exact h (PlateType.taxi, taxiPat) (by simp [patterns])
  · exact h (PlateType.trailer, trailerPat) (by simp [patterns])
  · exact h (PlateType.motorcycle, motorcyclePat) (by simp [patterns])
  · exact h (PlateType.transit, transitPat) (by simp [patterns])
  · exact h (PlateType.diplomatic, diplomaticPat) (by simp [patterns])

/-- Witness for C6 at the concrete non-matching input XYZZY. -/
theorem spec_c6_no_match_invalid_witness :
    validate_russian_plate ['X','Y','Z','Z','Y'] = some invalidResult ∧
    invalidResult.is_valid = false ∧
    invalidResult.plate_type = none ∧
    invalidResult.region_code = none ∧
    invalidResult.message = "Некорректный формат номерного знака" :=
  spec_c6_no_match_invalid ['X','Y','Z','Z','Y'] (by decide)

/-- C7: classify is total on every string of length at least 1: it
returns a value (never an exception), and that value is one of the
seven result shapes, namely the invalid result or a valid result of one
of the six plate types. -/
theorem spec_c7_total (s : Str) (h : 1 ≤ s.length) :
    ∃ r, validate_russian_plate s = some r ∧
      (r = invalidResult ∨
        (r.is_valid = true ∧
          (r.plate_type = some PlateType.standard ∨
           r.plate_type = some PlateType.taxi ∨
           r.plate_type = some PlateType.trailer ∨
           r.plate_type = some PlateType.motorcycle ∨
           r.plate_type = some PlateType.transit ∨
           r.plate_type = some PlateType.diplomatic))) := by
  obtain ⟨r, hv, hshape⟩ := classify_full s
  refine ⟨r, hv, ?_⟩
  rcases hshape with h' | ⟨ty, hval, hpt, _, _⟩
  · exact Or.inl h'
  refine Or.inr ⟨hval, ?_⟩
  cases ty
  · exact Or.inl hpt
  · exact Or.inr (Or.inl hpt)
  · exact Or.inr (Or.inr (Or.inl hpt))
  · exact Or.inr (Or.inr (Or.inr (Or.inl hpt)))
  · exact Or.inr (Or.inr (Or.inr (Or.inr (Or.inl hpt))))
  · exact Or.inr (Or.inr (Or.inr (Or.inr (Or.inr hpt))))

/-- Witness for C7 at the concrete one-character input X. -/
theorem spec_c7_total_witness :
    ∃ r, validate_russian_plate ['X'] = some r ∧
      (r = invalidResult ∨
        (r.is_valid = true ∧
          (r.plate_type = some PlateType.standard ∨
           r.plate_type = some PlateType.taxi ∨
           r.plate_type = some PlateType.trailer ∨
           r.plate_type = some PlateType.motorcycle ∨
           r.plate_type = some PlateType.transit ∨
           r.plate_type = some PlateType.diplomatic))) :=
  spec_c7_total ['X'] (by decide)

/-- C8: a batch request whose comma-split, stripped, empty-dropped plate
list is empty or longer than 10 entries is rejected with a 400 error and
the counters are left unchanged. -/
theorem spec_c8_batch_limits (plates : Str) (st : Stats)
    (h : 10 < (plateList plates).length ∨ plateList plates = []) :
    validate_multiple_plates plates st = (Except.error 400, st) := by
  rcases h with h | h
  · have hne : ¬(plateList plates).isEmpty = true := by
      intro he
      rw [List.isEmpty_iff] at he
      rw [he] at h
      simp at h
    rw [validate_multiple_plates]
    simp only [if_neg hne, if_pos h]
  · rw [validate_multiple_plates]
    simp [h]

/-- Witness for C8 at a concrete batch of 11 single-character plates. -/
theorem spec_c8_batch_limits_witness :
    validate_multiple_plates
      ['a',',','b',',','c',',','d',',','e',',','f',',','g',',','h',',',
       'i',',','j',',','k'] initStats = (Except.error 400, initStats) :=
  spec_c8_batch_limits
    ['a',',','b',',','c',',','d',',','e',',','f',',','g',',','h',',',
     'i',',','j',',','k'] initStats (Or.inl (by decide))

/-- C9: the ASCII string A123BC77 (Latin letters) is classified invalid:
the Latin look-alikes A, B and C are not in the Cyrillic-only
plate-letter class, so the input matches no pattern. -/
theorem spec_c9_ascii_invalid :
    validate_russian_plate ['A','1','2','3','B','C','7','7'] =
      some invalidResult ∧
    invalidResult.is_valid = false ∧
    isPlateLetter 'A' = false ∧ isPlateLetter 'B' = false ∧
    isPlateLetter 'C' = false := by decide

/-- Counterexample to C10: on the input А123ВС77 followed by a newline,
the $ anchor of the standard regex accepts the trailing newline, the
normalized string has length 9, and the code returns its last 3
characters as the region code - which therefore contains the newline, a
character that is not a decimal digit. -/
theorem spec_c10_counterexample :
    validate_russian_plate ['А','1','2','3','В','С','7','7','\n'] = some
      { is_valid := true, plate_type := some PlateType.standard,
        region_code := some ['7','7','\n'],
        message := validMessage PlateType.standard } ∧
    '\n' ∈ (['7','7','\n'] : Str) ∧ isDigitChar '\n' = false := by decide

/-- C10 amended: every classification result is well-formed in that the
plate type is none exactly when the result is invalid and an invalid
result carries no region code; and when the normalized input does not
end in a newline (which the $ anchor of the regexes would accept), a
present region code consists of exactly 2 or 3 decimal digit
characters. -/
theorem spec_c10_amended (s : Str) (r : ClassificationResult)
    (h : validate_russian_plate s = some r) :
    (r.plate_type = none ↔ r.is_valid = false) ∧
    (r.is_valid = false → r.region_code = none) ∧
    (¬(normalize s).getLast? = some '\n' →
      ∀ rc, r.region_code = some rc →
        (rc.length = 2 ∨ rc.length = 3) ∧ ∀ c ∈ rc, isDigitChar c = true) := by
  obtain ⟨r', hv, hshape⟩ := classify_full s
  rw [hv] at h
  injection h with h
  subst h
  rcases hshape with h' | ⟨ty, hval, hpt, _, hreg⟩
  · subst h'
    refine ⟨by simp [invalidResult], fun _ => rfl, ?_⟩
    intro _ rc hrc
    simp [invalidResult] at hrc
  · refine ⟨?_, ?_, ?_⟩
    · constructor
      · intro hn
        rw [hpt] at hn
        simp at hn
      · intro hf
        rw [hval] at hf
        simp at hf
    · intro hf
      rw [hval] at hf
      simp at hf
    · intro hnl rc hrc
      rcases hreg with hn | ⟨rc', hrc', hcond⟩
      · rw [hn] at hrc
        simp at hrc
      · rw [hrc'] at hrc
        injection hrc with hrc
        subst hrc
        obtain ⟨hd, hl⟩ := hcond hnl
        exact ⟨hl, hd⟩

/-- Witness for the amended C10 at the concrete standard plate
А123ВС77, which does not end in a newline. -/
theorem spec_c10_amended_witness :
    ((['7','7'] : Str).length = 2 ∨ (['7','7'] : Str).length = 3) ∧
    ∀ c ∈ (['7','7'] : Str), isDigitChar c = true :=
  (spec_c10_amended ['А','1','2','3','В','С','7','7']
    { is_valid := true, plate_type := some PlateType.standard,
      region_code := some ['7','7'],
      message := validMessage PlateType.standard } (by decide)).2.2
    (by decide) ['7','7'] rfl

end Camera
